import Mathlib

/-!
Verification of the append-only, log-structured key-value store
(bitcask-style engine) of this repository, against its natural-language
specification.

The Go sources are shallowly embedded:

* `datastore/entry.go` — the entry codec (`Entry.Encode`, `Entry.Decode`,
  `Entry.DecodeFromReader`, the SHA-1 value digest);
* `datastore/db.go` (the concurrent, serializer-based engine) — segment
  store, hash index, recovery, `writeEntry`/`Put`/`Get`/`Close`;
* the sequential engine copy embedded after `cmd/server/server.go` —
  `server.Put` / `server.Get`.

Modelling conventions:

* Go byte slices and strings are `List Nat` (each element a byte value);
  machine words are `Nat` with explicit `% 2^32` where Go truncates.
* The filesystem directory is an association list from file name (a byte
  list) to file contents; `os.ReadDir`'s sorted-by-filename guarantee is
  modelled by an explicit lexicographic insertion sort.
* Go run-time panics (slice bounds, closing a closed channel) are explicit
  result constructors, distinct from returned `error` values.
* `bufio.Reader` is modelled with its 4096-byte buffer: one `fill` moves at
  most `4096 - buffered` bytes from the underlying file, `Read` copies at
  most the buffered bytes and never refills a non-empty buffer.
-/

/-! ## Machine-word helpers -/

/-- Truncation to a 32-bit word, i.e. Go's `uint32(x)` conversion. -/
def w32 (n : Nat) : Nat := n % 4294967296

/-- Left rotation of a 32-bit word by `k` bits (for `x < 2^32`, `k ≤ 32`):
`x <<< k | x >>> (32-k)`.  The two parts occupy disjoint bit ranges, so the
bitwise-or is addition. -/
def rotl (k x : Nat) : Nat := (x * 2 ^ k) % 4294967296 + x / 2 ^ (32 - k)

/-- `binary.LittleEndian.PutUint32`: the four little-endian bytes of
`uint32(n)`. -/
def le32 (n : Nat) : List Nat :=
  [n % 256, n / 256 % 256, n / 65536 % 256, n / 16777216 % 256]

/-- `binary.LittleEndian.Uint32`: read a 32-bit little-endian word from the
first four bytes of a buffer.  (Go panics when fewer than four bytes are
available; every call site checks the length first, so the default branch
is unreachable.) -/
def leUint32 : List Nat → Nat
  | b0 :: b1 :: b2 :: b3 :: _ => b0 + 256 * b1 + 65536 * b2 + 16777216 * b3
  | _ => 0

/-- Big-endian 32-bit word from the first four bytes of a buffer. -/
def be32At : List Nat → Nat
  | b0 :: b1 :: b2 :: b3 :: _ => ((b0 * 256 + b1) * 256 + b2) * 256 + b3
  | _ => 0

/-- The four big-endian bytes of a 32-bit word. -/
def be32bytes (n : Nat) : List Nat :=
  [n / 16777216 % 256, n / 65536 % 256, n / 256 % 256, n % 256]

/-- The eight big-endian bytes of a 64-bit word. -/
def be64bytes (n : Nat) : List Nat :=
  [n / 2 ^ 56 % 256, n / 2 ^ 48 % 256, n / 2 ^ 40 % 256, n / 2 ^ 32 % 256,
   n / 16777216 % 256, n / 65536 % 256, n / 256 % 256, n % 256]

/-! ## SHA-1 (`crypto/sha1`, FIPS 180)

`entry.Encode` stores `sha1.Sum(value)` (20 bytes) after the value and
`entry.Decode` recomputes it. -/

/-- SHA-1 round constant for round `t`. -/
def sha1K (t : Nat) : Nat :=
  if t < 20 then 0x5A827999
  else if t < 40 then 0x6ED9EBA1
  else if t < 60 then 0x8F1BBCDC
  else 0xCA62C1D6

/-- SHA-1 round function for round `t`. -/
def sha1F (t b c d : Nat) : Nat :=
  if t < 20 then Nat.lor (Nat.land b c) (Nat.land (4294967295 - b) d)
  else if t < 40 then Nat.xor b (Nat.xor c d)
  else if t < 60 then Nat.lor (Nat.lor (Nat.land b c) (Nat.land b d)) (Nat.land c d)
  else Nat.xor b (Nat.xor c d)

/-- The 80 SHA-1 rounds over one block.  `ws` are the 16 block words;
`win` is the window of the 16 most recent schedule words (most recent
first), exactly Go's 16-word ring buffer. -/
def sha1Loop : Nat → Nat → List Nat → List Nat →
    Nat → Nat → Nat → Nat → Nat → Nat × Nat × Nat × Nat × Nat
  | 0, _, _, _, a, b, c, d, e => (a, b, c, d, e)
  | fuel + 1, t, ws, win, a, b, c, d, e =>
    let w :=
      if t < 16 then ws.getD t 0
      else rotl 1 (Nat.xor (win.getD 2 0)
        (Nat.xor (win.getD 7 0) (Nat.xor (win.getD 13 0) (win.getD 15 0))))
    let temp := w32 (rotl 5 a + sha1F t b c d + e + sha1K t + w)
    sha1Loop fuel (t + 1) ws ((w :: win).take 16) temp a (rotl 30 b) c d

/-- One SHA-1 compression step over a 64-byte block. -/
def sha1Compress (h : Nat × Nat × Nat × Nat × Nat) (block : List Nat) :
    Nat × Nat × Nat × Nat × Nat :=
  let ws := (List.range 16).map (fun i => be32At (block.drop (4 * i)))
  let r := sha1Loop 80 0 ws [] h.1 h.2.1 h.2.2.1 h.2.2.2.1 h.2.2.2.2
  (w32 (h.1 + r.1), w32 (h.2.1 + r.2.1), w32 (h.2.2.1 + r.2.2.1),
   w32 (h.2.2.2.1 + r.2.2.2.1), w32 (h.2.2.2.2 + r.2.2.2.2))

/-- SHA-1 padding: append `0x80`, zeros up to 56 mod 64, then the bit
length as a big-endian 64-bit word. -/
def sha1Pad (msg : List Nat) : List Nat :=
  msg ++ [128] ++ List.replicate ((119 - msg.length % 64) % 64) 0 ++
    be64bytes (8 * msg.length)

/-- Fold the compression function over the 64-byte blocks of `data`.
`fuel ≥ data.length` suffices since every step consumes 64 bytes of a
non-empty list. -/
def sha1Blocks : Nat → (Nat × Nat × Nat × Nat × Nat) → List Nat →
    Nat × Nat × Nat × Nat × Nat
  | 0, h, _ => h
  | fuel + 1, h, data =>
    if data.isEmpty then h
    else sha1Blocks fuel (sha1Compress h (data.take 64)) (data.drop 64)

/-- `sha1.Sum`: the 20-byte SHA-1 digest of a byte sequence. -/
def sha1 (msg : List Nat) : List Nat :=
  let padded := sha1Pad msg
  let t := sha1Blocks padded.length
    (0x67452301, 0xEFCDAB89, 0x98BADCFE, 0x10325476, 0xC3D2E1F0) padded
  be32bytes t.1 ++ be32bytes t.2.1 ++ be32bytes t.2.2.1 ++
    be32bytes t.2.2.2.1 ++ be32bytes t.2.2.2.2

/-! ## Entry codec (`datastore/entry.go`)

Record layout (little-endian lengths):
`total_size(4) | key_len(4) | key | value_len(4) | value | sha1(value)(20)`. -/

/-- One key/value record (`type entry struct { key, value string }`).
Go strings are byte sequences, modelled as `List Nat`. -/
structure Entry where
  key : List Nat
  value : List Nat
  deriving DecidableEq, Repr

/-- `entry.Encode`: build the framed record.  `size` is written through
`uint32(size)`, i.e. truncated mod `2^32` by `le32`, while the slice
allocated by `make([]byte, size)` has the full untruncated length. -/
def Entry.Encode (e : Entry) : List Nat :=
  let hash := sha1 e.value
  let size := e.key.length + e.value.length + 12 + hash.length
  le32 size ++ le32 e.key.length ++ e.key ++ le32 e.value.length ++
    e.value ++ hash

/-- Outcome of `entry.Decode`.  `panic` is a Go runtime panic (slice
bounds out of range / `Uint32` on a short slice) — the source performs no
bounds checks of its own.  `hashMismatch` is the
`fmt.Errorf("hash mismatch for key %s", …)` error. -/
inductive DecodeResult where
  | ok (e : Entry)
  | hashMismatch
  | panic
  deriving DecidableEq, Repr

/-- `entry.Decode`: parse lengths, slice out key and value, recompute the
value digest and compare it with the stored one (`equalHash` compares
length and bytes, i.e. list equality).  Each `if … then .panic` guard is
the exact bound under which the corresponding Go slice expression or
`Uint32` read panics. -/
def Entry.Decode (input : List Nat) : DecodeResult :=
  if input.length < 8 then .panic   -- binary.LittleEndian.Uint32(input[4:])
  else
    let kl := leUint32 (input.drop 4)
    if input.length < 8 + kl then .panic   -- input[8 : 8+kl]
    else
      let key := (input.drop 8).take kl
      if input.length < 12 + kl then .panic   -- Uint32(input[8+kl:])
      else
        let vl := leUint32 (input.drop (8 + kl))
        if input.length < 12 + kl + vl then .panic   -- input[12+kl : 12+kl+vl]
        else
          let value := (input.drop (12 + kl)).take vl
          let expectedHash := input.drop (12 + kl + vl)
          if expectedHash = sha1 value then .ok ⟨key, value⟩
          else .hashMismatch

/-! ### `bufio.Reader` model

`bufio.NewReader(f)` uses a 4096-byte buffer.  `buffered` is the data
currently in the buffer, `rest` is what remains in the underlying file
after the seek position. -/

/-- The `bufio.Reader` buffer size (`defaultBufSize`). -/
def bufCap : Nat := 4096

/-- A buffered reader over an in-memory byte stream. -/
structure GoReader where
  buffered : List Nat
  rest : List Nat
  deriving DecidableEq, Repr

/-- One `fill`: a single read from the underlying file moves at most
`bufCap - buffered` bytes into the buffer (a file read returns all
available bytes up to the requested count). -/
def rdFill (r : GoReader) : GoReader :=
  { buffered := r.buffered ++ r.rest.take (bufCap - r.buffered.length),
    rest := r.rest.drop (bufCap - r.buffered.length) }

/-- `Peek(4)`: fill until four bytes are buffered; if the stream is
exhausted first, report `io.EOF` (`none`).  A second fill on an exhausted
underlying reader yields nothing, so a single greedy fill is equivalent. -/
def rdPeek4 (r : GoReader) : Option (List Nat) × GoReader :=
  let r' := if r.buffered.length < 4 then rdFill r else r
  if r'.buffered.length < 4 then (none, r') else (some (r'.buffered.take 4), r')

/-- `Read(p)` with `len(p) = n` on a reader whose buffer is non-empty
(always the case right after a successful `Peek`): copy at most the
buffered bytes, never refill.  Hence at most `bufCap` bytes are returned
and `n` larger than the buffered amount yields a short read with a `nil`
error. -/
def rdRead (n : Nat) (r : GoReader) : List Nat × GoReader :=
  if r.buffered.isEmpty then
    let r' := rdFill r
    (r'.buffered.take n, { buffered := r'.buffered.drop n, rest := r'.rest })
  else
    (r.buffered.take n, { buffered := r.buffered.drop n, rest := r.rest })

/-- Outcome of `entry.DecodeFromReader` together with the byte count `n`
it returns.  `eof` is the clean `io.EOF` path (`errors.Is(err, io.EOF)`
after `Peek`); `decodeFail` is `Decode`'s hash-mismatch error passed
through; `panic` is a Go runtime panic inside `Decode`. -/
inductive DFRResult where
  | eof
  | ok (e : Entry) (n : Nat)
  | decodeFail (n : Nat)
  | panic
  deriving DecidableEq, Repr

/-- `entry.DecodeFromReader`: peek the 4-byte size prefix (any `io.EOF`
here — including a 1–3 byte tail — is returned as a clean `io.EOF`),
allocate `make([]byte, size)` (zero-filled), `Read` into it (which may
return fewer than `size` bytes with a `nil` error), then `Decode` the
buffer. -/
def Entry.DecodeFromReader (r : GoReader) : DFRResult × GoReader :=
  match rdPeek4 r with
  | (none, r') => (.eof, r')
  | (some szb, r') =>
    let size := leUint32 szb
    let (bytes, r'') := rdRead size r'
    let buf := bytes ++ List.replicate (size - bytes.length) 0
    match Entry.Decode buf with
    | .ok e => (.ok e bytes.length, r'')
    | .hashMismatch => (.decodeFail bytes.length, r'')
    | .panic => (.panic, r'')

/-! ## Segment file names and directory model

Files are named `segment-<id>` (`segmentFilename` /
`fmt.Sprintf("%s%d", …)`).  Names are byte lists; `os.ReadDir` returns
entries sorted by file name, i.e. byte-lexicographically. -/

/-- The bytes of the file-name constant `"segment-"` (`outFileNamePrefix`
in the source). -/
def segNamePre : List Nat := [115, 101, 103, 109, 101, 110, 116, 45]

/-- Decimal digits (as ASCII bytes) of `n`; fuel-based recursion on
`n / 10`.  `fuel > n` suffices. -/
def natDigitsAux : Nat → Nat → List Nat
  | 0, _ => []
  | fuel + 1, n =>
    if n < 10 then [48 + n]
    else natDigitsAux fuel (n / 10) ++ [48 + n % 10]

/-- Decimal digits (ASCII) of a natural number. -/
def natDigits (n : Nat) : List Nat := natDigitsAux (n + 1) n

/-- Decimal representation (ASCII) of an integer, as produced by
`fmt.Sprintf("%d", id)`. -/
def intDigits (i : Int) : List Nat :=
  if i < 0 then 45 :: natDigits (-i).toNat else natDigits i.toNat

/-- `segmentFilename(id) = "segment-" + decimal(id)` as a byte list. -/
def segmentFilename (id : Int) : List Nat := segNamePre ++ intDigits id

/-- A directory: file name ↦ file contents. -/
abbrev Dir : Type := List (List Nat × List Nat)

/-- Look up a file's contents by name. -/
def dirLookup : Dir → List Nat → Option (List Nat)
  | [], _ => none
  | (n, c) :: rest, name => if n = name then some c else dirLookup rest name

/-- `os.OpenFile(path, O_CREATE|…)`: create the file empty if absent,
leave it untouched if present. -/
def dirCreate (d : Dir) (name : List Nat) : Dir :=
  match dirLookup d name with
  | some _ => d
  | none => d ++ [(name, [])]

/-- An `O_APPEND` write of `data` to the named file (appends at the end of
the file regardless of any tracked offset; creates the file if absent,
which does not occur for a handle obtained via `dirCreate`). -/
def dirAppend : Dir → List Nat → List Nat → Dir
  | [], name, data => [(name, data)]
  | (n, c) :: rest, name, data =>
    if n = name then (n, c ++ data) :: rest
    else (n, c) :: dirAppend rest name data

/-- Byte-lexicographic ordering on names (Go compares file names as
strings, i.e. byte-wise). -/
def bytesLe : List Nat → List Nat → Bool
  | [], _ => true
  | _ :: _, [] => false
  | x :: xs, y :: ys => if x < y then true else if y < x then false else bytesLe xs ys

/-- Insert into a sorted list of names. -/
def insertName (n : List Nat) : List (List Nat) → List (List Nat)
  | [] => [n]
  | m :: ms => if bytesLe n m then n :: m :: ms else m :: insertName n ms

/-- `os.ReadDir` name order: sorted byte-lexicographically. -/
def sortNames (ns : List (List Nat)) : List (List Nat) :=
  ns.foldr insertName []

/-- Does `pre` occur at the start of `l` (`strings.HasPrefix`)? -/
def bytesHasPre : List Nat → List Nat → Bool
  | [], _ => true
  | _ :: _, [] => false
  | p :: ps, x :: xs => if p = x then bytesHasPre ps xs else false

/-- Value of a non-empty all-digit byte string, `none` otherwise. -/
def digitsVal? : List Nat → Option Nat
  | [] => none
  | ds => ds.foldl
      (fun acc d => acc.bind fun a =>
        if 48 ≤ d ∧ d ≤ 57 then some (10 * a + (d - 48)) else none)
      (some 0)

/-- `strconv.Atoi`: optional sign followed by at least one digit.
(Overflow of `int` is ignored: segment ids stay tiny.) -/
def atoiBytes : List Nat → Option Int
  | [] => none
  | 45 :: ds => (digitsVal? ds).map fun v => -(v : Int)
  | 43 :: ds => (digitsVal? ds).map fun v => (v : Int)
  | ds => (digitsVal? ds).map fun v => (v : Int)

/-- The segment id parsed from a directory entry name: filter by the
`segment-` name constant, then `Atoi` the remainder. -/
def parseSegName (n : List Nat) : Option Int :=
  if bytesHasPre segNamePre n then atoiBytes (n.drop 8) else none

/-! ## Engine state (`type Db struct`)

Shared sequential state of both engine copies.  The concurrency fields of
the concurrent copy (`mu`, `writeCh`, `wg`) have no sequential content:
the single writer goroutine applies `writeEntry` to one request at a
time, and a `Put` blocks until its own request is done.  `closeCh` is
modelled separately for `Close`.  The directory path is identified with
the directory's contents, since every file operation goes through it. -/

/-- `segmentRef`: location of a record on disk. -/
structure SegmentRef where
  segmentId : Int
  offset : Nat
  deriving DecidableEq, Repr

/-- The in-memory hash index, key ↦ most recent `segmentRef`. -/
abbrev HashIndex : Type := List (List Nat × SegmentRef)

/-- Go map lookup. -/
def idxLookup : HashIndex → List Nat → Option SegmentRef
  | [], _ => none
  | (k, r) :: rest, key => if k = key then some r else idxLookup rest key

/-- Go map insert/overwrite (`db.index[key] = ref`). -/
def idxInsert : HashIndex → List Nat → SegmentRef → HashIndex
  | [], key, ref => [(key, ref)]
  | (k, r) :: rest, key, ref =>
    if k = key then (k, ref) :: rest else (k, r) :: idxInsert rest key ref

/-- The sequential state of a `Db`. -/
structure Db where
  dir : Dir
  segmentLimit : Int
  currentSegmentId : Int
  currentOffset : Nat
  index : HashIndex
  deriving DecidableEq, Repr

namespace datastore

/-- `Db.createNewSegment`: bump the id, create `segment-<id+1>` and reset
the write offset to 0 (the in-memory filesystem never fails). -/
def createNewSegment (db : Db) : Db :=
  { db with
      currentSegmentId := db.currentSegmentId + 1,
      currentOffset := 0,
      dir := dirCreate db.dir (segmentFilename (db.currentSegmentId + 1)) }

/-- `Db.writeEntry`: encode, rotate if the record would overflow the
segment limit, append, update the index under the write lock, advance the
offset by the number of bytes written (`n = len(data)`). -/
def writeEntry (db : Db) (key value : List Nat) : Db :=
  let data := (Entry.mk key value).Encode
  let db1 :=
    if (db.currentOffset : Int) + (data.length : Int) > db.segmentLimit then
      createNewSegment db
    else db
  { db1 with
      dir := dirAppend db1.dir (segmentFilename db1.currentSegmentId) data,
      index := idxInsert db1.index key
        ⟨db1.currentSegmentId, db1.currentOffset⟩,
      currentOffset := db1.currentOffset + data.length }

/-- `Db.Put`: enqueue the request and block until the writer goroutine
has applied `writeEntry` to it; under sequential use the observable
effect is exactly `writeEntry`. -/
def Put (db : Db) (key value : List Nat) : Db := writeEntry db key value

/-- Go error identities relevant to `Get`.  `corrupted` is the
`ErrCorrupted` sentinel variable (its declaration lives in a repository
file not present under the sources; modelled from the spec:
`CorruptedRecord`, a read-time checksum failure sentinel).  `Decode`'s
hash-mismatch error is created by `fmt.Errorf` without wrapping, so
`errors.Is` can only match it against itself. -/
inductive GoErrKind where
  | eofE
  | hashMismatch
  | corrupted
  | notFound
  deriving DecidableEq, BEq, Repr

/-- `errors.Is` restricted to the error values reaching `Get`: none of
them wraps another, so `errors.Is` is plain identity. -/
def goErrorsIs (e target : GoErrKind) : Bool := e == target

/-- Result of `Db.Get`. -/
inductive GetResult where
  | ok (v : List Nat)
  | errNotFound
  | errEOF
  | errHashMismatch
  | errCorrupted
  | errOpenFail
  | panic
  deriving DecidableEq, Repr

/-- `Db.Get`: index lookup under the read lock, open the referenced
segment, seek to the stored offset, decode one record through a fresh
`bufio.Reader`, re-map `ErrCorrupted` (the `errors.Is` branch), return
the value. -/
def Get (db : Db) (key : List Nat) : GetResult :=
  match idxLookup db.index key with
  | none => .errNotFound
  | some ref =>
    match dirLookup db.dir (segmentFilename ref.segmentId) with
    | none => .errOpenFail
    | some content =>
      match Entry.DecodeFromReader ⟨[], content.drop ref.offset⟩ with
      | (.eof, _) =>
        if goErrorsIs .eofE .corrupted then .errCorrupted else .errEOF
      | (.ok e _, _) => .ok e.value
      | (.decodeFail _, _) =>
        if goErrorsIs .hashMismatch .corrupted then .errCorrupted
        else .errHashMismatch
      | (.panic, _) => .panic

/-! ### Recovery (`Db.loadSegments` / `Db.recoverSegment`) -/

/-- Errors surfaced by `OpenWithLimit`. -/
inductive OpenErr where
  | ioErr          -- os.ReadDir / os.Open / os.OpenFile failure
  | corrupted      -- fmt.Errorf("corrupted segment: %w", err)
  | panicked       -- Go runtime panic during recovery
  | fuel           -- unreachable: fuel below the loop bound
  deriving DecidableEq, Repr

/-- The `recoverSegment` loop: decode records sequentially, tracking the
running byte offset; a clean `io.EOF` ends the segment, any other decode
failure aborts recovery.  Every successful iteration consumes at least
one byte, so `fuel > |segment|` makes the `fuel` outcome unreachable. -/
def recoverLoop : Nat → Int → GoReader → Nat → HashIndex →
    Except OpenErr HashIndex
  | 0, _, _, _, _ => .error .fuel
  | fuel + 1, segId, r, offset, idx =>
    match Entry.DecodeFromReader r with
    | (.eof, _) => .ok idx
    | (.ok e n, r') =>
      recoverLoop fuel segId r' (offset + n) (idxInsert idx e.key ⟨segId, offset⟩)
    | (.decodeFail _, _) => .error .corrupted
    | (.panic, _) => .error .panicked

/-- `Db.recoverSegment`: open the segment file and replay it from
offset 0. -/
def recoverSegment (d : Dir) (id : Int) (idx : HashIndex) :
    Except OpenErr HashIndex :=
  match dirLookup d (segmentFilename id) with
  | none => .error .ioErr
  | some content => recoverLoop (content.length + 1) id ⟨[], content⟩ 0 idx

/-- The `loadSegments` loop over the parsed ids, **in the order produced
by the sorted directory listing**, tracking the running maximum id. -/
def loadLoop : List Int → Dir → Int → HashIndex →
    Except OpenErr (Int × HashIndex)
  | [], _, maxId, idx => .ok (maxId, idx)
  | id :: rest, d, maxId, idx =>
    let maxId' := if id > maxId then id else maxId
    match recoverSegment d id idx with
    | .error e => .error e
    | .ok idx' => loadLoop rest d maxId' idx'

/-- `Db.loadSegments`: list the directory (sorted by name), filter by the
`segment-` name constant and parse ids, recover each listed segment,
then reopen the highest-numbered segment for append with the offset set
to its on-disk size.  An empty id list creates a fresh `segment-1`. -/
def loadSegments (d : Dir) (limit : Int) : Except OpenErr Db :=
  let segmentIds := (sortNames (d.map Prod.fst)).filterMap parseSegName
  if segmentIds.isEmpty then
    .ok (createNewSegment
      { dir := d, segmentLimit := limit, currentSegmentId := 0,
        currentOffset := 0, index := [] })
  else
    match loadLoop segmentIds d (-1) [] with
    | .error e => .error e
    | .ok (maxId, idx) =>
      match dirLookup d (segmentFilename maxId) with
      | none => .error .ioErr   -- O_APPEND|O_WRONLY without O_CREATE
      | some content =>
        .ok { dir := d, segmentLimit := limit, currentSegmentId := maxId,
              currentOffset := content.length, index := idx }

/-- `OpenWithLimit`: build the `Db`, load the segments, start the writer
goroutine (no sequential effect). -/
def OpenWithLimit (d : Dir) (limit : Int) : Except OpenErr Db :=
  loadSegments d limit

/-- `defaultMaxSegmentSize` = 10 MB. -/
def defaultMaxSegmentSize : Int := 10485760

/-! ### `Db.Close` -/

/-- The close-relevant state of the concurrent engine: whether `closeCh`
has been closed, whether the writer loop is still running, whether the
current segment's handle is open. -/
structure CloseSt where
  closeChClosed : Bool
  writerRunning : Bool
  segmentHandleOpen : Bool
  deriving DecidableEq, Repr

/-- Outcome of `Db.Close`: either the post-state (with a `nil` error —
closing the in-memory segment handle cannot fail), or the Go runtime
panic raised by `close()` on an already-closed channel. -/
inductive CloseResult where
  | ok (s : CloseSt)
  | panicCloseOfClosedChannel
  deriving DecidableEq, Repr

/-- `Db.Close`: `close(db.closeCh)` — which panics if `closeCh` is
already closed — then `wg.Wait()` for the writer loop to return, then
close the current segment handle. -/
def Close (s : CloseSt) : CloseResult :=
  if s.closeChClosed then .panicCloseOfClosedChannel
  else .ok ⟨true, false, false⟩

end datastore

/-! ## Sequential engine copy (after `cmd/server/server.go`)

The second `datastore` implementation in the sources: no writer
goroutine, no locks, `Put` performs the write inline and `Get` returns
decode errors unwrapped. -/

namespace server

/-- `Db.createNewSegment` (sequential copy, line-identical). -/
def createNewSegment (db : Db) : Db :=
  { db with
      currentSegmentId := db.currentSegmentId + 1,
      currentOffset := 0,
      dir := dirCreate db.dir (segmentFilename (db.currentSegmentId + 1)) }

/-- `Db.Put` (sequential copy): encode, rotate on overflow, append,
update index, advance offset — inline, no queue. -/
def Put (db : Db) (key value : List Nat) : Db :=
  let data := (Entry.mk key value).Encode
  let db1 :=
    if (db.currentOffset : Int) + (data.length : Int) > db.segmentLimit then
      createNewSegment db
    else db
  { db1 with
      dir := dirAppend db1.dir (segmentFilename db1.currentSegmentId) data,
      index := idxInsert db1.index key
        ⟨db1.currentSegmentId, db1.currentOffset⟩,
      currentOffset := db1.currentOffset + data.length }

/-- `Db.Get` (sequential copy): like the concurrent one but without the
`errors.Is(err, ErrCorrupted)` re-mapping — errors are returned as-is. -/
def Get (db : Db) (key : List Nat) : datastore.GetResult :=
  match idxLookup db.index key with
  | none => .errNotFound
  | some ref =>
    match dirLookup db.dir (segmentFilename ref.segmentId) with
    | none => .errOpenFail
    | some content =>
      match Entry.DecodeFromReader ⟨[], content.drop ref.offset⟩ with
      | (.eof, _) => .errEOF
      | (.ok e _, _) => .ok e.value
      | (.decodeFail _, _) => .errHashMismatch
      | (.panic, _) => .panic

end server

/-! ## Observational runs (for the engine-equivalence claim) -/

/-- One engine call in a sequential history. -/
inductive EngOp where
  | put (k v : List Nat)
  | get (k : List Nat)
  deriving DecidableEq, Repr

/-- One observable call result. -/
inductive EngOut where
  | putOk
  | got (r : datastore.GetResult)
  deriving DecidableEq, Repr

namespace datastore

/-- Run a sequential history against the concurrent engine (one call at
a time, so each `Put` is the writer's `writeEntry`). -/
def runOps (db : Db) : List EngOp → List EngOut × Db
  | [] => ([], db)
  | .put k v :: ops =>
    let (outs, db') := runOps (Put db k v) ops
    (.putOk :: outs, db')
  | .get k :: ops =>
    let (outs, db') := runOps db ops
    (.got (Get db k) :: outs, db')

end datastore

namespace server

/-- Run a sequential history against the sequential engine. -/
def runOps (db : Db) : List EngOp → List EngOut × Db
  | [] => ([], db)
  | .put k v :: ops =>
    let (outs, db') := runOps (Put db k v) ops
    (.putOk :: outs, db')
  | .get k :: ops =>
    let (outs, db') := runOps db ops
    (.got (Get db k) :: outs, db')

end server

/-! ## Engine invariant and claim scenario states -/

/-- Decimal value of a digit string (helper for injectivity). -/
def digitsValue (ds : List Nat) : Nat :=
  ds.foldl (fun a d => 10 * a + (d - 48)) 0

namespace datastore

/-- Well-formedness of an engine state, as established by `OpenWithLimit`
and preserved by `writeEntry`: the current segment file exists and its
on-disk size equals the tracked write offset, ids start at 1, and no
segment file with a larger id exists (so a rotation target is always a
fresh file). -/
def WF (db : Db) : Prop :=
  1 ≤ db.currentSegmentId ∧
  (∃ c, dirLookup db.dir (segmentFilename db.currentSegmentId) = some c ∧
    c.length = db.currentOffset) ∧
  ∀ j : Int, db.currentSegmentId < j →
    dirLookup db.dir (segmentFilename j) = none

end datastore

def c7Key : List Nat := List.replicate 4088 107

def c7db0 : Db :=
  { dir := [(segmentFilename 1, [])], segmentLimit := 10485760,
    currentSegmentId := 1, currentOffset := 0, index := [] }

/-- A key of 2^32 bytes: its length does not survive the `uint32` length
field of the record format. -/
def bigKey : List Nat := List.replicate 4294967296 0

/-- The ten puts of the recovery scenario: the same key `"k"`, values
`"0"` … `"9"`, against `segmentLimit = 34` (each encoded record is
exactly 34 bytes, so every record after the first triggers a rotation and
each segment holds one record). -/
def c1Puts : List (List Nat × List Nat) :=
  [([107], [48]), ([107], [49]), ([107], [50]), ([107], [51]), ([107], [52]),
   ([107], [53]), ([107], [54]), ([107], [55]), ([107], [56]), ([107], [57])]

/-- Open an empty directory with limit 34, apply the ten puts, close
(which persists nothing beyond the already-written files), reopen the
resulting directory and `Get "k"`. -/
def c1ReopenGet : Option datastore.GetResult :=
  (((datastore.OpenWithLimit [] 34).toOption.map
    (fun db => c1Puts.foldl (fun d p => datastore.Put d p.1 p.2) db)).bind
    (fun db => (datastore.OpenWithLimit db.dir 34).toOption)).map
    (fun db2 => datastore.Get db2 [107])

/-- The state produced by opening an empty directory with
`segmentLimit = 5`: any 34-byte record is oversized. -/
def c6db0 : Db :=
  { dir := [(segmentFilename 1, [])], segmentLimit := 5,
    currentSegmentId := 1, currentOffset := 0, index := [] }

/-! ## Codec lemmas -/

/-! ### Sanity checks of the codec model -/

set_option maxRecDepth 40000 in
example : sha1 [] =
    [0xda, 0x39, 0xa3, 0xee, 0x5e, 0x6b, 0x4b, 0x0d, 0x32, 0x55,
     0xbf, 0xef, 0x95, 0x60, 0x18, 0x90, 0xaf, 0xd8, 0x07, 0x09] := by decide

set_option maxRecDepth 40000 in
example : sha1 [97, 98, 99] =
    [0xa9, 0x99, 0x3e, 0x36, 0x47, 0x06, 0x81, 0x6a, 0xba, 0x3e,
     0x25, 0x71, 0x78, 0x50, 0xc2, 0x6c, 0x9c, 0xd0, 0xd8, 0x9d] := by decide

set_option maxRecDepth 40000 in
example :
    Entry.Decode (Entry.Encode ⟨[107, 49], [118, 97, 108]⟩) =
      .ok ⟨[107, 49], [118, 97, 108]⟩ := by decide

set_option maxRecDepth 40000 in
example :
    (Entry.DecodeFromReader ⟨[], Entry.Encode ⟨[107], [118]⟩⟩).1 =
      .ok ⟨[107], [118]⟩ 34 := by decide

theorem le32_length (n : Nat) : (le32 n).length = 4 := rfl

theorem leUint32_le32_append (n : Nat) (r : List Nat) :
    leUint32 (le32 n ++ r) = n % 4294967296 := by
  simp only [le32, List.cons_append, List.nil_append, leUint32]
  omega

theorem leUint32_le32 (n : Nat) : leUint32 (le32 n) = n % 4294967296 := by
  have := leUint32_le32_append n []
  simpa using this

theorem sha1_length (msg : List Nat) : (sha1 msg).length = 20 := by
  simp [sha1, be32bytes]

/-- `Encode` unfolded, with the digest length evaluated. -/
theorem Encode_def (e : Entry) :
    e.Encode = le32 (e.key.length + e.value.length + 12 + 20) ++
      (le32 e.key.length ++ (e.key ++ (le32 e.value.length ++
        (e.value ++ sha1 e.value)))) := by
  simp [Entry.Encode, sha1_length]

theorem Encode_length (e : Entry) :
    e.Encode.length = e.key.length + e.value.length + 32 := by
  rw [Encode_def]
  simp [le32, sha1_length]
  omega

theorem Encode_drop4 (e : Entry) :
    e.Encode.drop 4 = le32 e.key.length ++ (e.key ++ (le32 e.value.length ++
      (e.value ++ sha1 e.value))) := by
  rw [Encode_def]
  exact List.drop_left' (le32_length _)

theorem Encode_drop8 (e : Entry) :
    e.Encode.drop 8 = e.key ++ (le32 e.value.length ++
      (e.value ++ sha1 e.value)) := by
  have h : e.Encode.drop 8 = (e.Encode.drop 4).drop 4 := by
    rw [List.drop_drop]
  rw [h, Encode_drop4]
  exact List.drop_left' (le32_length _)

theorem Encode_drop8kl (e : Entry) :
    e.Encode.drop (8 + e.key.length) = le32 e.value.length ++
      (e.value ++ sha1 e.value) := by
  have h : e.Encode.drop (8 + e.key.length) = (e.Encode.drop 8).drop e.key.length := by
    rw [List.drop_drop, Nat.add_comm]
  rw [h, Encode_drop8]
  exact List.drop_left' rfl

theorem Encode_drop12kl (e : Entry) :
    e.Encode.drop (12 + e.key.length) = e.value ++ sha1 e.value := by
  have h : e.Encode.drop (12 + e.key.length) =
      (e.Encode.drop (8 + e.key.length)).drop 4 := by
    rw [List.drop_drop]
    have h12 : 8 + e.key.length + 4 = 12 + e.key.length := by omega
    rw [h12]
  rw [h, Encode_drop8kl]
  exact List.drop_left' (le32_length _)

theorem Encode_drop12klvl (e : Entry) :
    e.Encode.drop (12 + e.key.length + e.value.length) = sha1 e.value := by
  have h : e.Encode.drop (12 + e.key.length + e.value.length) =
      (e.Encode.drop (12 + e.key.length)).drop e.value.length := by
    rw [List.drop_drop]
  rw [h, Encode_drop12kl]
  exact List.drop_left' rfl

theorem Encode_size_field (e : Entry) :
    leUint32 e.Encode = (e.key.length + e.value.length + 32) % 4294967296 := by
  rw [Encode_def, leUint32_le32_append]

theorem Encode_keylen_field (e : Entry) :
    leUint32 (e.Encode.drop 4) = e.key.length % 4294967296 := by
  rw [Encode_drop4, leUint32_le32_append]

theorem Encode_key_field (e : Entry) :
    (e.Encode.drop 8).take e.key.length = e.key := by
  rw [Encode_drop8]
  exact List.take_left' rfl

theorem Encode_vallen_field (e : Entry) :
    leUint32 (e.Encode.drop (8 + e.key.length)) =
      e.value.length % 4294967296 := by
  rw [Encode_drop8kl, leUint32_le32_append]

theorem Encode_value_field (e : Entry) :
    (e.Encode.drop (12 + e.key.length)).take e.value.length = e.value := by
  rw [Encode_drop12kl]
  exact List.take_left' rfl

/-- Round trip of the codec, for key and value lengths that survive the
`uint32` length fields. -/
theorem Decode_Encode (e : Entry) (hk : e.key.length < 4294967296)
    (hv : e.value.length < 4294967296) : Entry.Decode e.Encode = .ok e := by
  have hlen := Encode_length e
  have hkl : leUint32 (e.Encode.drop 4) = e.key.length := by
    rw [Encode_keylen_field, Nat.mod_eq_of_lt hk]
  have hvl : leUint32 (e.Encode.drop (8 + e.key.length)) = e.value.length := by
    rw [Encode_vallen_field, Nat.mod_eq_of_lt hv]
  unfold Entry.Decode
  rw [if_neg (by omega)]
  rw [hkl, if_neg (by omega)]
  rw [if_neg (by omega), hvl, if_neg (by omega)]
  rw [Encode_key_field, Encode_value_field, Encode_drop12klvl, if_pos rfl]

/-! ## Reader lemmas -/

theorem rdFill_empty (s : List Nat) :
    rdFill ⟨[], s⟩ = ⟨s.take 4096, s.drop 4096⟩ := by
  simp [rdFill, bufCap]

/-- One definitional step of `rdPeek4` on a fresh reader (the empty buffer
always triggers the fill). -/
theorem rdPeek4_empty_step (s : List Nat) :
    rdPeek4 ⟨[], s⟩ =
      (if (rdFill ⟨[], s⟩).buffered.length < 4 then (none, rdFill ⟨[], s⟩)
       else (some ((rdFill ⟨[], s⟩).buffered.take 4), rdFill ⟨[], s⟩)) := rfl

theorem rdPeek4_short (s : List Nat) (h : s.length < 4) :
    rdPeek4 ⟨[], s⟩ = (none, ⟨s.take 4096, s.drop 4096⟩) := by
  have hlen : (s.take 4096).length = min 4096 s.length := List.length_take 4096 s
  rw [rdPeek4_empty_step, rdFill_empty]
  rw [if_pos (by simp only [hlen]; omega)]

theorem rdPeek4_long (s : List Nat) (h : 4 ≤ s.length) :
    rdPeek4 ⟨[], s⟩ =
      (some ((s.take 4096).take 4), ⟨s.take 4096, s.drop 4096⟩) := by
  have hlen : (s.take 4096).length = min 4096 s.length := List.length_take 4096 s
  rw [rdPeek4_empty_step, rdFill_empty]
  rw [if_neg (by simp only [hlen]; omega)]

/-- Decoding a reader positioned exactly at an encoded record of size at
most the `bufio` buffer yields the entry and its full size. -/
theorem DecodeFromReader_Encode (e : Entry) (hle : e.Encode.length ≤ 4096)
    (hk : e.key.length < 4294967296) (hv : e.value.length < 4294967296) :
    Entry.DecodeFromReader ⟨[], e.Encode⟩ =
      (.ok e e.Encode.length, ⟨[], []⟩) := by
  have hlen := Encode_length e
  have htake : e.Encode.take 4096 = e.Encode := List.take_of_length_le hle
  have hdrop : e.Encode.drop 4096 = [] := List.drop_eq_nil_iff.mpr hle
  have hpeek := rdPeek4_long e.Encode (by omega)
  rw [htake, hdrop] at hpeek
  have hszb : leUint32 (e.Encode.take 4) = e.Encode.length := by
    conv_lhs => rw [Encode_def]
    rw [List.take_left' (le32_length _), leUint32_le32,
      Nat.mod_eq_of_lt (by omega), hlen]
  have hne : e.Encode.isEmpty = false := by
    cases hE : e.Encode with
    | nil => rw [hE] at hlen; simp at hlen
    | cons a l => simp
  have hread : rdRead e.Encode.length ⟨e.Encode, []⟩ =
      (e.Encode, ⟨[], []⟩) := by
    simp [rdRead, hne, List.take_length, List.drop_length]
  unfold Entry.DecodeFromReader
  rw [hpeek]
  simp only [hszb, hread]
  rw [Nat.sub_self, List.replicate_zero, List.append_nil]
  rw [Decode_Encode e hk hv]

theorem DecodeFromReader_short_eof (s : List Nat) (h : s.length < 4) :
    (Entry.DecodeFromReader ⟨[], s⟩).1 = .eof := by
  unfold Entry.DecodeFromReader
  rw [rdPeek4_short s h]

theorem DecodeFromReader_long_not_eof (s : List Nat) (h : 4 ≤ s.length) :
    (Entry.DecodeFromReader ⟨[], s⟩).1 ≠ .eof := by
  unfold Entry.DecodeFromReader
  rw [rdPeek4_long s h]
  dsimp only
  split <;> simp

/-! ## Directory and index lemmas -/

theorem dirLookup_append_self (d : Dir) (n data : List Nat) :
    dirLookup (dirAppend d n data) n =
      some ((dirLookup d n).getD [] ++ data) := by
  induction d with
  | nil => simp [dirAppend, dirLookup]
  | cons p rest ih =>
    obtain ⟨m, c⟩ := p
    by_cases hm : m = n
    · subst hm
      simp [dirAppend, dirLookup]
    · simp [dirAppend, dirLookup, hm, ih]

theorem dirLookup_append_ne (d : Dir) (n data m : List Nat) (h : m ≠ n) :
    dirLookup (dirAppend d n data) m = dirLookup d m := by
  induction d with
  | nil =>
    simp [dirAppend, dirLookup, Ne.symm h]
  | cons p rest ih =>
    obtain ⟨m', c⟩ := p
    by_cases hm : m' = n
    · subst hm
      simp [dirAppend, dirLookup, Ne.symm h]
    · simp [dirAppend, dirLookup, hm, ih]

theorem dirLookup_concat_ne (d : Dir) (n c m : List Nat) (h : m ≠ n) :
    dirLookup (d ++ [(n, c)]) m = dirLookup d m := by
  induction d with
  | nil => simp [dirLookup, Ne.symm h]
  | cons p rest ih =>
    obtain ⟨m', c'⟩ := p
    by_cases hm : m' = m <;> simp [dirLookup, hm, ih]

theorem dirLookup_concat_self (d : Dir) (n c : List Nat)
    (h : dirLookup d n = none) :
    dirLookup (d ++ [(n, c)]) n = some c := by
  induction d with
  | nil => simp [dirLookup]
  | cons p rest ih =>
    obtain ⟨m, c'⟩ := p
    by_cases hm : m = n
    · simp [dirLookup, hm] at h
    · simp only [List.cons_append, dirLookup, hm, if_false] at h ⊢
      exact ih h

theorem dirLookup_create_self (d : Dir) (n : List Nat) :
    dirLookup (dirCreate d n) n = some ((dirLookup d n).getD []) := by
  unfold dirCreate
  cases h : dirLookup d n with
  | some c => simp [h]
  | none => simp [dirLookup_concat_self d n [] h]

theorem dirLookup_create_ne (d : Dir) (n m : List Nat) (h : m ≠ n) :
    dirLookup (dirCreate d n) m = dirLookup d m := by
  unfold dirCreate
  cases hl : dirLookup d n with
  | some c => rfl
  | none => exact dirLookup_concat_ne d n [] m h

theorem idxLookup_insert_self (idx : HashIndex) (k : List Nat)
    (r : SegmentRef) : idxLookup (idxInsert idx k r) k = some r := by
  induction idx with
  | nil => simp [idxInsert, idxLookup]
  | cons p rest ih =>
    obtain ⟨k', r'⟩ := p
    by_cases hk : k' = k
    · subst hk
      simp [idxInsert, idxLookup]
    · simp [idxInsert, idxLookup, hk, ih]

theorem idxLookup_insert_ne (idx : HashIndex) (k : List Nat)
    (r : SegmentRef) (m : List Nat) (h : m ≠ k) :
    idxLookup (idxInsert idx k r) m = idxLookup idx m := by
  induction idx with
  | nil => simp [idxInsert, idxLookup, Ne.symm h]
  | cons p rest ih =>
    obtain ⟨k', r'⟩ := p
    by_cases hk : k' = k
    · subst hk
      simp [idxInsert, idxLookup, Ne.symm h]
    · simp [idxInsert, idxLookup, hk, ih]

/-! ## Segment file name injectivity -/

theorem digitsValue_snoc (ds : List Nat) (d : Nat) :
    digitsValue (ds ++ [d]) = 10 * digitsValue ds + (d - 48) := by
  simp [digitsValue, List.foldl_append]

theorem digitsValue_natDigitsAux :
    ∀ fuel n, n < fuel → digitsValue (natDigitsAux fuel n) = n := by
  intro fuel
  induction fuel with
  | zero => intro n h; omega
  | succ f ih =>
    intro n h
    by_cases h10 : n < 10
    · simp [natDigitsAux, h10, digitsValue]
    · have hdiv : n / 10 < n := Nat.div_lt_self (by omega) (by omega)
      rw [natDigitsAux, if_neg h10, digitsValue_snoc, ih (n / 10) (by omega)]
      omega

theorem natDigits_inj {a b : Nat} (h : natDigits a = natDigits b) : a = b := by
  have ha := digitsValue_natDigitsAux (a + 1) a (by omega)
  have hb := digitsValue_natDigitsAux (b + 1) b (by omega)
  rw [natDigits] at h
  rw [natDigits] at h
  rw [h] at ha
  omega

theorem segmentFilename_inj {a b : Int} (ha : 0 ≤ a) (hb : 0 ≤ b)
    (h : segmentFilename a = segmentFilename b) : a = b := by
  unfold segmentFilename intDigits at h
  rw [if_neg (by omega), if_neg (by omega)] at h
  have h2 := List.append_cancel_left h
  have h3 := natDigits_inj h2
  omega

/-! ## Engine invariant and write/read lemmas -/

namespace datastore

/-- `writeEntry`, rotation branch. -/
theorem writeEntry_eq_rot (db : Db) (key value : List Nat)
    (hrot : (db.currentOffset : Int) + ((Entry.mk key value).Encode.length : Int) >
      db.segmentLimit) :
    writeEntry db key value =
      { dir := dirAppend
          (dirCreate db.dir (segmentFilename (db.currentSegmentId + 1)))
          (segmentFilename (db.currentSegmentId + 1))
          (Entry.mk key value).Encode,
        segmentLimit := db.segmentLimit,
        currentSegmentId := db.currentSegmentId + 1,
        currentOffset := 0 + (Entry.mk key value).Encode.length,
        index := idxInsert db.index key ⟨db.currentSegmentId + 1, 0⟩ } := by
  simp only [writeEntry, createNewSegment]
  rw [if_pos hrot]

/-- `writeEntry`, in-place branch. -/
theorem writeEntry_eq_norot (db : Db) (key value : List Nat)
    (hrot : ¬ ((db.currentOffset : Int) + ((Entry.mk key value).Encode.length : Int) >
      db.segmentLimit)) :
    writeEntry db key value =
      { dir := dirAppend db.dir (segmentFilename db.currentSegmentId)
          (Entry.mk key value).Encode,
        segmentLimit := db.segmentLimit,
        currentSegmentId := db.currentSegmentId,
        currentOffset := db.currentOffset + (Entry.mk key value).Encode.length,
        index := idxInsert db.index key
          ⟨db.currentSegmentId, db.currentOffset⟩ } := by
  simp only [writeEntry, createNewSegment]
  rw [if_neg hrot]

/-- `writeEntry` preserves well-formedness. -/
theorem WF_writeEntry (db : Db) (key value : List Nat) (h : WF db) :
    WF (writeEntry db key value) := by
  obtain ⟨h1, ⟨c, hc, hlen⟩, hfresh⟩ := h
  by_cases hrot : (db.currentOffset : Int) +
      ((Entry.mk key value).Encode.length : Int) > db.segmentLimit
  · rw [writeEntry_eq_rot db key value hrot]
    unfold WF
    dsimp only
    refine ⟨by omega, ⟨(Entry.mk key value).Encode, ?_, by omega⟩, ?_⟩
    · rw [dirLookup_append_self, dirLookup_create_self,
        hfresh (db.currentSegmentId + 1) (by omega)]
      simp
    · intro j hj
      have hne : segmentFilename j ≠ segmentFilename (db.currentSegmentId + 1) := by
        intro heq
        have := segmentFilename_inj (by omega) (by omega) heq
        omega
      rw [dirLookup_append_ne _ _ _ _ hne, dirLookup_create_ne _ _ _ hne,
        hfresh j (by omega)]
  · rw [writeEntry_eq_norot db key value hrot]
    unfold WF
    dsimp only
    refine ⟨by omega, ⟨c ++ (Entry.mk key value).Encode, ?_, by simp; omega⟩, ?_⟩
    · rw [dirLookup_append_self, hc]
      rfl
    · intro j hj
      have hne : segmentFilename j ≠ segmentFilename db.currentSegmentId := by
        intro heq
        have := segmentFilename_inj (by omega) (by omega) heq
        omega
      rw [dirLookup_append_ne _ _ _ _ hne, hfresh j (by omega)]

/-- Reading back the key just written: on a well-formed state, a
`writeEntry` whose record fits in the `bufio` buffer is immediately
visible to `Get`. -/
theorem Get_writeEntry (db : Db) (key value : List Nat) (hwf : WF db)
    (hsize : (Entry.mk key value).Encode.length ≤ 4096) :
    Get (writeEntry db key value) key = .ok value := by
  obtain ⟨h1, ⟨c, hc, hlen⟩, hfresh⟩ := hwf
  have hEl := Encode_length (Entry.mk key value)
  have hk : (Entry.mk key value).key.length < 4294967296 := by
    simp only [Entry.mk] at hEl ⊢
    omega
  have hv : (Entry.mk key value).value.length < 4294967296 := by
    simp only [Entry.mk] at hEl ⊢
    omega
  have hdfr := DecodeFromReader_Encode (Entry.mk key value) hsize hk hv
  by_cases hrot : (db.currentOffset : Int) +
      ((Entry.mk key value).Encode.length : Int) > db.segmentLimit
  · rw [writeEntry_eq_rot db key value hrot]
    have hdir : dirLookup
        (dirAppend (dirCreate db.dir (segmentFilename (db.currentSegmentId + 1)))
          (segmentFilename (db.currentSegmentId + 1)) (Entry.mk key value).Encode)
        (segmentFilename (db.currentSegmentId + 1)) =
        some (Entry.mk key value).Encode := by
      rw [dirLookup_append_self, dirLookup_create_self,
        hfresh (db.currentSegmentId + 1) (by omega)]
      simp
    simp only [Get, idxLookup_insert_self, hdir, List.drop_zero, hdfr]
  · rw [writeEntry_eq_norot db key value hrot]
    have hdir : dirLookup
        (dirAppend db.dir (segmentFilename db.currentSegmentId)
          (Entry.mk key value).Encode)
        (segmentFilename db.currentSegmentId) =
        some (c ++ (Entry.mk key value).Encode) := by
      rw [dirLookup_append_self, hc]
      rfl
    have hdropc : (c ++ (Entry.mk key value).Encode).drop db.currentOffset =
        (Entry.mk key value).Encode := by
      rw [← hlen]
      exact List.drop_left _ _
    simp only [Get, idxLookup_insert_self, hdir, hdropc, hdfr]

end datastore

/-! ## Engine-copy equivalence lemmas -/

theorem server_Put_eq_datastore (db : Db) (k v : List Nat) :
    server.Put db k v = datastore.Put db k v := rfl

theorem server_Get_eq_datastore (db : Db) (k : List Nat) :
    server.Get db k = datastore.Get db k := by
  unfold server.Get datastore.Get
  rfl

theorem runOps_eq (ops : List EngOp) :
    ∀ db : Db, server.runOps db ops = datastore.runOps db ops := by
  induction ops with
  | nil => intro db; rfl
  | cons op rest ih =>
    intro db
    cases op with
    | put k v =>
      simp only [server.runOps, datastore.runOps, server_Put_eq_datastore, ih]
    | get k =>
      simp only [server.runOps, datastore.runOps, server_Get_eq_datastore, ih]

/-! ## Truncated reads: records larger than the `bufio` buffer -/

theorem isEmpty_false_of_pos {l : List Nat} (h : 0 < l.length) :
    l.isEmpty = false := by
  cases l with
  | nil => simp at h
  | cons a t => rfl

theorem leUint32_replicate_zero {n : Nat} (h : 4 ≤ n) :
    leUint32 (List.replicate n 0) = 0 := by
  obtain ⟨m, rfl⟩ : ∃ m, n = m + 4 := ⟨n - 4, by omega⟩
  rfl

theorem rdRead_nonempty (n : Nat) (b r : List Nat) (hb : b.isEmpty = false) :
    rdRead n ⟨b, r⟩ = (b.take n, ⟨b.drop n, r⟩) := by
  unfold rdRead
  dsimp only
  rw [hb]
  simp

/-- A record whose 4088-byte key pushes the value-length field to byte
offset 4096: the single buffered `Read` returns only the first 4096
bytes, the rest of `make([]byte, size)` stays zero, so `Decode` reads a
zero value length and a hash region of the wrong size — the record of a
non-empty value always fails with the hash-mismatch error. -/
theorem DecodeFromReader_Encode_bigkey (e : Entry) (hkey : e.key.length = 4088)
    (hval : 1 ≤ e.value.length) (hv32 : e.value.length + 4120 < 4294967296) :
    (Entry.DecodeFromReader ⟨[], e.Encode⟩).1 = .decodeFail 4096 := by
  have hL := Encode_length e
  have hdef := Encode_def e
  have hassoc : e.Encode =
      (le32 (e.key.length + e.value.length + 12 + 20) ++
        (le32 e.key.length ++ e.key)) ++
      (le32 e.value.length ++ (e.value ++ sha1 e.value)) := by
    rw [hdef]
    simp [List.append_assoc]
  have hPlen : (le32 (e.key.length + e.value.length + 12 + 20) ++
      (le32 e.key.length ++ e.key)).length = 4096 := by
    simp [le32]
    omega
  have htk : e.Encode.take 4096 =
      le32 (e.key.length + e.value.length + 12 + 20) ++
        (le32 e.key.length ++ e.key) := by
    rw [hassoc]
    exact List.take_left' hPlen
  have htklen : (e.Encode.take 4096).length = 4096 := by
    rw [htk]
    exact hPlen
  have hpeek := rdPeek4_long e.Encode (by omega)
  have hsize : leUint32 ((e.Encode.take 4096).take 4) = e.Encode.length := by
    rw [htk, List.take_append_of_le_length (by rw [le32_length]),
      List.take_of_length_le (by rw [le32_length]), leUint32_le32,
      Nat.mod_eq_of_lt (by omega), hL]
  have hbne : (e.Encode.take 4096).isEmpty = false :=
    isEmpty_false_of_pos (by omega)
  have hread : rdRead e.Encode.length ⟨e.Encode.take 4096, e.Encode.drop 4096⟩ =
      (e.Encode.take 4096,
       ⟨(e.Encode.take 4096).drop e.Encode.length, e.Encode.drop 4096⟩) := by
    rw [rdRead_nonempty _ _ _ hbne, List.take_of_length_le (by omega)]
  have hbuf : e.Encode.take 4096 ++
      List.replicate (e.Encode.length - 4096) 0 =
      (le32 (e.key.length + e.value.length + 12 + 20) ++
        (le32 e.key.length ++ e.key)) ++
      List.replicate (e.value.length + 24) 0 := by
    rw [htk]
    have hz : e.Encode.length - 4096 = e.value.length + 24 := by omega
    rw [hz]
  -- the zero-padded buffer fails `Decode` with a hash mismatch
  have hdec : Entry.Decode
      ((le32 (e.key.length + e.value.length + 12 + 20) ++
        (le32 e.key.length ++ e.key)) ++
       List.replicate (e.value.length + 24) 0) = .hashMismatch := by
    have hblen : ((le32 (e.key.length + e.value.length + 12 + 20) ++
        (le32 e.key.length ++ e.key)) ++
       List.replicate (e.value.length + 24) 0).length =
        e.value.length + 4120 := by
      simp [le32]
      omega
    have hd4 : ((le32 (e.key.length + e.value.length + 12 + 20) ++
        (le32 e.key.length ++ e.key)) ++
       List.replicate (e.value.length + 24) 0).drop 4 =
        le32 e.key.length ++
          (e.key ++ List.replicate (e.value.length + 24) 0) := by
      have h2 : (le32 (e.key.length + e.value.length + 12 + 20) ++
          (le32 e.key.length ++ e.key)) ++
         List.replicate (e.value.length + 24) 0 =
          le32 (e.key.length + e.value.length + 12 + 20) ++
            (le32 e.key.length ++
              (e.key ++ List.replicate (e.value.length + 24) 0)) := by
        simp [List.append_assoc]
      rw [h2]
      exact List.drop_left' (le32_length _)
    have hkl' : leUint32 (((le32 (e.key.length + e.value.length + 12 + 20) ++
        (le32 e.key.length ++ e.key)) ++
       List.replicate (e.value.length + 24) 0).drop 4) = e.key.length := by
      rw [hd4, leUint32_le32_append, Nat.mod_eq_of_lt (by omega)]
    have hd8k : ((le32 (e.key.length + e.value.length + 12 + 20) ++
        (le32 e.key.length ++ e.key)) ++
       List.replicate (e.value.length + 24) 0).drop (8 + e.key.length) =
        List.replicate (e.value.length + 24) 0 :=
      List.drop_left' (by simp [le32]; omega)
    have hvl' : leUint32 (((le32 (e.key.length + e.value.length + 12 + 20) ++
        (le32 e.key.length ++ e.key)) ++
       List.replicate (e.value.length + 24) 0).drop (8 + e.key.length)) = 0 := by
      rw [hd8k]
      exact leUint32_replicate_zero (by omega)
    have hd12k : ((le32 (e.key.length + e.value.length + 12 + 20) ++
        (le32 e.key.length ++ e.key)) ++
       List.replicate (e.value.length + 24) 0).drop (12 + e.key.length) =
        List.replicate (e.value.length + 20) 0 := by
      have hstep : ((le32 (e.key.length + e.value.length + 12 + 20) ++
          (le32 e.key.length ++ e.key)) ++
         List.replicate (e.value.length + 24) 0).drop (12 + e.key.length) =
          (((le32 (e.key.length + e.value.length + 12 + 20) ++
            (le32 e.key.length ++ e.key)) ++
           List.replicate (e.value.length + 24) 0).drop (8 + e.key.length)).drop 4 := by
        rw [List.drop_drop]
        have h4 : 8 + e.key.length + 4 = 12 + e.key.length := by omega
        rw [h4]
      rw [hstep, hd8k, List.drop_replicate]
      have h24 : e.value.length + 24 - 4 = e.value.length + 20 := by omega
      rw [h24]
    unfold Entry.Decode
    rw [hblen, if_neg (by omega)]
    rw [hkl', if_neg (by omega), if_neg (by omega), hvl', if_neg (by omega)]
    rw [List.take_zero, Nat.add_zero, hd12k]
    rw [if_neg ?hne]
    case hne =>
      intro heq
      have hlen20 := congrArg List.length heq
      rw [List.length_replicate, sha1_length] at hlen20
      omega
  unfold Entry.DecodeFromReader
  rw [hpeek]
  simp only [hsize, hread, hbuf, hdec, htklen]

namespace datastore

/-- `Get` right after writing a record with a 4088-byte key and a
non-empty value: the buffered read truncates the record at 4096 bytes and
`Get` fails with the hash-mismatch error instead of returning the value. -/
theorem Get_writeEntry_bigkey (db : Db) (key value : List Nat) (hwf : WF db)
    (hkey : key.length = 4088) (hval : 1 ≤ value.length)
    (hv32 : value.length + 4120 < 4294967296) :
    Get (writeEntry db key value) key = .errHashMismatch := by
  obtain ⟨h1, ⟨c, hc, hlen⟩, hfresh⟩ := hwf
  rcases hpair : Entry.DecodeFromReader ⟨[], (Entry.mk key value).Encode⟩
    with ⟨res, rr⟩
  have hres : res = .decodeFail 4096 := by
    have hd := DecodeFromReader_Encode_bigkey (Entry.mk key value) hkey hval hv32
    rw [hpair] at hd
    exact hd
  subst hres
  by_cases hrot : (db.currentOffset : Int) +
      ((Entry.mk key value).Encode.length : Int) > db.segmentLimit
  · rw [writeEntry_eq_rot db key value hrot]
    have hdir : dirLookup
        (dirAppend (dirCreate db.dir (segmentFilename (db.currentSegmentId + 1)))
          (segmentFilename (db.currentSegmentId + 1)) (Entry.mk key value).Encode)
        (segmentFilename (db.currentSegmentId + 1)) =
        some (Entry.mk key value).Encode := by
      rw [dirLookup_append_self, dirLookup_create_self,
        hfresh (db.currentSegmentId + 1) (by omega)]
      simp
    simp only [Get, idxLookup_insert_self, hdir, List.drop_zero, hpair]
    rfl
  · rw [writeEntry_eq_norot db key value hrot]
    have hdir : dirLookup
        (dirAppend db.dir (segmentFilename db.currentSegmentId)
          (Entry.mk key value).Encode)
        (segmentFilename db.currentSegmentId) =
        some (c ++ (Entry.mk key value).Encode) := by
      rw [dirLookup_append_self, hc]
      rfl
    have hdropc : (c ++ (Entry.mk key value).Encode).drop db.currentOffset =
        (Entry.mk key value).Encode := by
      rw [← hlen]
      exact List.drop_left _ _
    simp only [Get, idxLookup_insert_self, hdir, hdropc, hpair]
    rfl

end datastore

theorem c7db0_wf : datastore.WF c7db0 := by
  refine ⟨by decide, ⟨[], rfl, rfl⟩, ?_⟩
  intro j hj
  have hj' : 1 < j := hj
  have hne : segmentFilename 1 ≠ segmentFilename j := by
    intro heq
    have := segmentFilename_inj (by omega) (by omega) heq
    omega
  simp [c7db0, dirLookup, hne]

/-! ## Further codec lemmas used by the claims -/

theorem Decode_ok_key (input : List Nat) (e' : Entry)
    (h : Entry.Decode input = .ok e') :
    e'.key = (input.drop 8).take (leUint32 (input.drop 4)) := by
  simp only [Entry.Decode] at h
  split_ifs at h
  · injection h with he
    rw [← he]

theorem bigKey_length : bigKey.length = 4294967296 := by
  show (List.replicate 4294967296 0).length = 4294967296
  rw [List.length_replicate]

/-! ## Concrete engine states and scenarios used by the claims -/

/-! ## Claim theorems -/

set_option maxRecDepth 100000 in
/-- Claim C1 (code bug, failing evaluation).  Ten puts of key `"k"` with
values `"0"` … `"9"` under `segmentLimit = 34` produce segments 1–10,
one record each, the last written value being `"9"` (byte 57) in
segment 10.  After close and reopen, recovery replays the segments in
the lexicographic file-name order delivered by `os.ReadDir`
(`segment-1, segment-10, segment-2, …, segment-9`), not in ascending
numeric id order, so the index keeps segment 9's record and `Get "k"`
returns the stale value `"8"` (byte 56) instead of the last written
`"9"` — refuting the ascending-replay/last-value property the claim
states for stores with ten or more segments. -/
theorem c1_recovery_order_bug :
    (c1Puts.map Prod.snd).getLast? = some [57] ∧
    c1ReopenGet = some (.ok [56]) ∧
    ([56] : List Nat) ≠ [57] := by
  refine ⟨by decide, by decide, by decide⟩

/-- Claim C2 (counterexample).  Starting from a freshly opened engine
(`closeCh` open, writer running, segment handle open), the first `Close`
succeeds — but a second `Close` executes `close(db.closeCh)` on an
already-closed channel, which is a Go runtime panic, not the no-op
return the claim states. -/
theorem c2_second_close_panics :
    datastore.Close ⟨false, true, true⟩ = .ok ⟨true, false, false⟩ ∧
    datastore.Close ⟨true, false, false⟩ = .panicCloseOfClosedChannel := by
  decide

/-- Claim C2 (amended).  The first `Close` on any engine whose `closeCh`
is still open stops the writer, waits for its loop to exit and closes
the current segment handle; calling `Close` again on the resulting state
panics (`close` of a closed channel) rather than being a no-op. -/
theorem c2_close_amended (w hnd : Bool) :
    datastore.Close ⟨false, w, hnd⟩ = .ok ⟨true, false, false⟩ ∧
    datastore.Close ⟨true, false, false⟩ = .panicCloseOfClosedChannel :=
  ⟨rfl, rfl⟩

/-- Claim C3 (counterexample).  An 8-byte buffer whose key-length field
reads 100 makes `Decode` evaluate `input[8 : 8+100]` on an 8-byte slice:
a Go runtime panic (slice bounds out of range), not a returned
`MalformedRecord` error — no such error exists in the source. -/
theorem c3_short_buffer_panics :
    Entry.Decode [32, 0, 0, 0, 100, 0, 0, 0] = .panic := by
  decide

/-- Claim C3 (amended).  `decode` is not total: it crashes with a Go
slice-bounds panic exactly on the buffers whose length fields would read
past the end (header shorter than 8 bytes, key slice past the end,
value-length word past the end, or value slice past the end); on all
other buffers it returns either the entry or the hash-mismatch error,
never a `MalformedRecord` error. -/
theorem c3_decode_panic_iff (input : List Nat) :
    Entry.Decode input = .panic ↔
      (input.length < 8 ∨
       input.length < 8 + leUint32 (input.drop 4) ∨
       input.length < 12 + leUint32 (input.drop 4) ∨
       input.length < 12 + leUint32 (input.drop 4) +
         leUint32 (input.drop (8 + leUint32 (input.drop 4)))) := by
  simp only [Entry.Decode]
  split_ifs with h1 h2 h3 h4 h5
  · exact ⟨fun _ => Or.inl h1, fun _ => rfl⟩
  · exact ⟨fun _ => Or.inr (Or.inl h2), fun _ => rfl⟩
  · exact ⟨fun _ => Or.inr (Or.inr (Or.inl h3)), fun _ => rfl⟩
  · exact ⟨fun _ => Or.inr (Or.inr (Or.inr h4)), fun _ => rfl⟩
  · exact ⟨fun hh => absurd hh (by simp), fun hdisj => absurd hdisj (by omega)⟩
  · exact ⟨fun hh => absurd hh (by simp), fun hdisj => absurd hdisj (by omega)⟩

/-- Claim C4 (counterexample).  For a key of 2^32 zero bytes (and empty
value) the key-length field stores `2^32 % 2^32 = 0`, so decoding its own
encoding cannot return the original entry: the round trip fails. -/
theorem c4_roundtrip_fails_at_big_key :
    Entry.Decode (Entry.mk bigKey []).Encode ≠ .ok (Entry.mk bigKey []) := by
  intro h
  have hk := Decode_ok_key _ _ h
  rw [Encode_keylen_field (Entry.mk bigKey [])] at hk
  have hlen : (Entry.mk bigKey []).key.length = 4294967296 := bigKey_length
  rw [hlen, Nat.mod_self, List.take_zero] at hk
  have hlen2 := congrArg List.length hk
  rw [hlen] at hlen2
  simp at hlen2

/-- Claim C4 (amended).  The round trip `decode (encode e) = e` holds for
every key and value shorter than 2^32 bytes (the range representable in
the 4-byte length fields), in particular for empty keys and values. -/
theorem c4_roundtrip_amended (key value : List Nat)
    (hk : key.length < 4294967296) (hv : value.length < 4294967296) :
    Entry.Decode (Entry.mk key value).Encode = .ok (Entry.mk key value) :=
  Decode_Encode (Entry.mk key value) hk hv

set_option maxRecDepth 100000 in
theorem c4_roundtrip_amended_witness :
    ([] : List Nat).length < 4294967296 ∧
    ([] : List Nat).length < 4294967296 ∧
    Entry.Decode (Entry.mk [] []).Encode = .ok (Entry.mk [] []) :=
  ⟨by decide, by decide, c4_roundtrip_amended [] [] (by decide) (by decide)⟩

/-- Claim C6.  Rotation: whenever the current offset plus the encoded
record size exceeds the segment limit — in particular whenever the
record alone is larger than the limit — `writeEntry` closes the current
segment, creates `segment-(id+1)` (fresh by the open invariant), writes
the whole record into it at offset 0, indexes the key at
`(id+1, 0)` and leaves the new offset at the record size. -/
theorem c6_rotation (db : Db) (key value : List Nat)
    (hrot : (db.currentOffset : Int) + ((Entry.mk key value).Encode.length : Int) >
      db.segmentLimit)
    (hfresh : dirLookup db.dir (segmentFilename (db.currentSegmentId + 1)) = none) :
    (datastore.writeEntry db key value).currentSegmentId =
      db.currentSegmentId + 1 ∧
    (datastore.writeEntry db key value).currentOffset =
      (Entry.mk key value).Encode.length ∧
    dirLookup (datastore.writeEntry db key value).dir
      (segmentFilename (db.currentSegmentId + 1)) =
      some (Entry.mk key value).Encode ∧
    idxLookup (datastore.writeEntry db key value).index key =
      some ⟨db.currentSegmentId + 1, 0⟩ := by
  rw [datastore.writeEntry_eq_rot db key value hrot]
  refine ⟨rfl, by dsimp only; omega, ?_, ?_⟩
  · dsimp only
    rw [dirLookup_append_self, dirLookup_create_self, hfresh]
    simp
  · dsimp only
    exact idxLookup_insert_self _ _ _

set_option maxRecDepth 100000 in
theorem c6_rotation_witness :
    ((c6db0.currentOffset : Int) + ((Entry.mk [107] [118]).Encode.length : Int) >
      c6db0.segmentLimit ∧
     dirLookup c6db0.dir (segmentFilename (c6db0.currentSegmentId + 1)) = none) ∧
    ((datastore.writeEntry c6db0 [107] [118]).currentSegmentId =
        c6db0.currentSegmentId + 1 ∧
     (datastore.writeEntry c6db0 [107] [118]).currentOffset =
        (Entry.mk [107] [118]).Encode.length ∧
     dirLookup (datastore.writeEntry c6db0 [107] [118]).dir
        (segmentFilename (c6db0.currentSegmentId + 1)) =
        some (Entry.mk [107] [118]).Encode ∧
     idxLookup (datastore.writeEntry c6db0 [107] [118]).index [107] =
        some ⟨c6db0.currentSegmentId + 1, 0⟩) :=
  ⟨⟨by decide, by decide⟩, c6_rotation c6db0 [107] [118] (by decide) (by decide)⟩

/-- Claim C7 (counterexample).  `put(k, v1); put(k, v2); get(k)` does not
return `v2` when the record of `(k, v2)` is larger than the 4096-byte
`bufio` buffer: `Get`'s single buffered `Read` returns only the first
4096 bytes with a `nil` error, the rest of `make([]byte, size)` stays
zero, and `Decode` fails with the hash-mismatch error.  Here `k` is a
4088-byte key and `v2` a 5-byte value (record size 4125). -/
theorem c7_get_after_put_fails_beyond_bufio :
    datastore.Get (datastore.Put (datastore.Put c7db0 c7Key [98]) c7Key
      [97, 97, 97, 97, 97]) c7Key = .errHashMismatch ∧
    datastore.Get (datastore.Put (datastore.Put c7db0 c7Key [98]) c7Key
      [97, 97, 97, 97, 97]) c7Key ≠ .ok [97, 97, 97, 97, 97] := by
  have h : datastore.Get (datastore.Put (datastore.Put c7db0 c7Key [98]) c7Key
      [97, 97, 97, 97, 97]) c7Key = .errHashMismatch :=
    datastore.Get_writeEntry_bigkey
      (datastore.Put c7db0 c7Key [98]) c7Key [97, 97, 97, 97, 97]
      (datastore.WF_writeEntry c7db0 c7Key [98] c7db0_wf)
      (by show (List.replicate 4088 107).length = 4088
          rw [List.length_replicate])
      (by decide) (by decide)
  exact ⟨h, by rw [h]; simp⟩

/-- Claim C7 (amended).  Last-write-wins within a session holds for every
well-formed engine state and every record that fits within the 4096-byte
`bufio` read buffer: after `put(k, v1); put(k, v2)`, `get(k)` returns
`v2`. -/
theorem c7_last_write_wins_amended (db : Db) (k v1 v2 : List Nat)
    (hwf : datastore.WF db)
    (hsize : (Entry.mk k v2).Encode.length ≤ 4096) :
    datastore.Get (datastore.Put (datastore.Put db k v1) k v2) k = .ok v2 :=
  datastore.Get_writeEntry (datastore.Put db k v1) k v2
    (datastore.WF_writeEntry db k v1 hwf) hsize

set_option maxRecDepth 100000 in
theorem c7_last_write_wins_amended_witness :
    datastore.WF c7db0 ∧ (Entry.mk [107] [50]).Encode.length ≤ 4096 ∧
    datastore.Get (datastore.Put (datastore.Put c7db0 [107] [49]) [107] [50])
      [107] = .ok [50] :=
  ⟨c7db0_wf, by decide,
   c7_last_write_wins_amended c7db0 [107] [49] [50] c7db0_wf (by decide)⟩

/-- Claim C8 (counterexample).  A stream holding a single byte — a
partial size prefix, so a partial record with more than zero bytes
remaining — is reported as the clean end-of-data `io.EOF`, not as a
distinct truncation condition. -/
theorem c8_short_tail_reports_clean_eof :
    (Entry.DecodeFromReader ⟨[], [5]⟩).1 = .eof ∧
    ([5] : List Nat).length ≠ 0 := by
  decide

/-- Claim C8 (amended).  `DecodeFromReader` on a fresh reader reports the
clean `io.EOF` exactly when fewer than four bytes remain (not exactly
when zero remain); with four or more bytes it never reports `io.EOF` —
the declared size is read zero-padded and the outcome is a decoded
entry, the hash-mismatch error, or a panic.  No distinct truncated-record
condition exists. -/
theorem c8_eof_iff_lt4 (s : List Nat) :
    (Entry.DecodeFromReader ⟨[], s⟩).1 = .eof ↔ s.length < 4 :=
  ⟨fun h => by
    by_contra hge
    exact DecodeFromReader_long_not_eof s (by omega) h,
   DecodeFromReader_short_eof s⟩

/-- Claim C9 (counterexample).  For a key of 2^32 bytes the `total_size`
field (read back little-endian) holds `(2^32 + 32) % 2^32 = 32`, while
the produced byte sequence has length `2^32 + 32`: the field does not
equal the length of the encoding. -/
theorem c9_size_field_differs_at_big_key :
    leUint32 (Entry.mk bigKey []).Encode ≠ (Entry.mk bigKey []).Encode.length := by
  rw [Encode_size_field, Encode_length]
  have hlen : (Entry.mk bigKey []).key.length = 4294967296 := bigKey_length
  have hv : (Entry.mk bigKey []).value.length = 0 := rfl
  rw [hlen, hv]
  omega

/-- Claim C9 (amended).  `encode` lays the record out as
`total_size(4B LE) | key_len(4B LE) | key | value_len(4B LE) | value |
sha1(value) (20B)`, the produced sequence has length
`12 + key_len + value_len + 20`, and each 4-byte length field holds the
corresponding length reduced mod 2^32 (equal to it whenever the length
is below 2^32). -/
theorem c9_layout_amended (key value : List Nat) :
    (Entry.mk key value).Encode.length = 12 + key.length + value.length + 20 ∧
    leUint32 (Entry.mk key value).Encode =
      (12 + key.length + value.length + 20) % 4294967296 ∧
    leUint32 ((Entry.mk key value).Encode.drop 4) = key.length % 4294967296 ∧
    ((Entry.mk key value).Encode.drop 8).take key.length = key ∧
    leUint32 ((Entry.mk key value).Encode.drop (8 + key.length)) =
      value.length % 4294967296 ∧
    ((Entry.mk key value).Encode.drop (12 + key.length)).take value.length =
      value ∧
    (Entry.mk key value).Encode.drop (12 + key.length + value.length) =
      sha1 value ∧
    (sha1 value).length = 20 := by
  have h3 := Encode_keylen_field (Entry.mk key value)
  have h4 := Encode_key_field (Entry.mk key value)
  have h5 := Encode_vallen_field (Entry.mk key value)
  have h6 := Encode_value_field (Entry.mk key value)
  have h7 := Encode_drop12klvl (Entry.mk key value)
  dsimp only at h3 h4 h5 h6 h7
  refine ⟨?_, ?_, h3, h4, h5, h6, h7, sha1_length _⟩
  · rw [Encode_length]
    dsimp only
    omega
  · rw [Encode_size_field]
    dsimp only
    omega

/-- Claim C10.  The serializer-based engine (single writer goroutine,
`writeEntry` per queued request, `Get` with the `ErrCorrupted`
`errors.Is` re-mapping) and the plain sequential engine embedded after
the server code are observationally equivalent under sequential use: any
history of `put`/`get` calls from any common starting state — in
particular the state loaded from the same directory contents and segment
limit — yields identical results, identical segment file contents and an
identical index. -/
theorem c10_engines_observationally_equivalent (ops : List EngOp) (db : Db) :
    server.runOps db ops = datastore.runOps db ops :=
  runOps_eq ops db
